import Mathlib

/-!
Verification of the résumé extraction pipeline (`cv_to_json.py`) of the
cvmatch-backend repository.  The Python source is shallowly embedded:
the document is a pure structure of tables (lists of rows of cell
strings) and paragraphs; each Python regex used by the source is
embedded as a small backtracking matcher over an item list whose
semantics follow CPython's `re` module (leftmost search, ordered
alternation, greedy/lazy single-character-class quantifiers,
lookahead); fallible code (`datetime.strptime`, `None.strip()`) is
modelled with `Except`.  Character classes are modelled over their
ASCII content (the inputs of interest are ASCII).
-/

namespace CvToJson

/-- Python whitespace (`str.strip`, regex `\s`), restricted to the
characters Python treats as whitespace. -/
def pyIsSpace (c : Char) : Bool :=
  c == ' ' || c == '\t' || c == '\n' || c == '\r' || c == '\x0b' || c == '\x0c' ||
  c == '\x1c' || c == '\x1d' || c == '\x1e' || c == '\x1f' || c == '\x85' || c == '\xa0' ||
  c == ' ' || (0x2000 ≤ c.toNat && c.toNat ≤ 0x200a) ||
  c == ' ' || c == ' ' || c == ' ' || c == ' ' || c == '　'

/-- Word characters for the regex `\b` boundary (ASCII content of `\w`). -/
def pyIsWord (c : Char) : Bool := c.isAlphanum || c == '_'

/-- Remove leading whitespace. -/
def trimLead (l : List Char) : List Char := l.dropWhile pyIsSpace

/-- Remove trailing whitespace. -/
def trimTrail (l : List Char) : List Char := (l.reverse.dropWhile pyIsSpace).reverse

/-- Python `str.strip()` on a character list. -/
def stripL (l : List Char) : List Char := trimTrail (trimLead l)

/-- Python `str.strip()` on a string. -/
def stripStr (s : String) : String := String.mk (stripL s.toList)

/-- Line terminators recognised by Python `str.splitlines`. -/
def pyIsLineBreak (c : Char) : Bool :=
  c == '\n' || c == '\r' || c == '\x0b' || c == '\x0c' || c == '\x1c' ||
  c == '\x1d' || c == '\x1e' || c == '\x85' || c == ' ' || c == ' '

/-- Python `"\n".join(text.splitlines())`: every line terminator
(including `\r\n`) becomes `\n` and one trailing terminator is
dropped.  This is the input normalisation of `convert_to_json`. -/
def pySplitJoin : List Char → List Char
  | [] => []
  | '\r' :: '\n' :: rest => if rest.isEmpty then [] else '\n' :: pySplitJoin rest
  | c :: rest =>
    if pyIsLineBreak c then (if rest.isEmpty then [] else '\n' :: pySplitJoin rest)
    else c :: pySplitJoin rest

/-- Python `list.split(sep)` on a character list: empty pieces kept,
`[]` splits to `[[]]`. -/
def splitOnChar (sep : Char) : List Char → List (List Char)
  | [] => [[]]
  | c :: t =>
    let r := splitOnChar sep t
    if c == sep then [] :: r
    else match r with
         | h :: t2 => (c :: h) :: t2
         | [] => [[c]]

/-- Python `s.split(" ", 1)` when it yields two parts: the text before
the first space and the text after it; `none` when no space occurs
(where the source's tuple unpacking raises `ValueError`). -/
def splitFirstSpaceL : List Char → Option (List Char × List Char)
  | [] => none
  | c :: t =>
    if c == ' ' then some ([], t)
    else match splitFirstSpaceL t with
         | some (a, b) => some (c :: a, b)
         | none => none

/-! ## A small regex matcher

Every regex in the source uses quantifiers only over single-character
classes, so a match item is a literal, an ordered alternation of
literals, a quantified character class (with min/max count, greedy or
lazy, optionally the capture group of interest), or a lookahead over
literal alternatives (optionally accepting end of input, for `\Z`).
Backtracking order follows CPython: items left to right, later items
backtrack first; greedy classes try the longest count first, lazy ones
the shortest. -/

inductive RItem where
  | lit (l : String)
  | alts (ls : List String)
  | cls (p : Char → Bool) (mn : Nat) (mx : Option Nat) (lz : Bool) (cap : Bool)
  | look (ls : List String) (allowEnd : Bool)

/-- Record the capture group's text when the item is the capturing one. -/
def addCap (cap : Bool) (old : Option (List Char)) (v : List Char) : Option (List Char) :=
  if cap then some v else old

/-- Match an item list against a prefix of `s`, returning the capture
group of interest on success.  `fuel` only needs to exceed the number
of items (each step consumes one item). -/
def mrun : Nat → List RItem → List Char → Option (List Char) → Option (Option (List Char))
  | 0, _, _, _ => none
  | _ + 1, [], _, cap => some cap
  | fuel + 1, RItem.lit l :: rest, s, cap =>
    if l.toList.isPrefixOf s then mrun fuel rest (s.drop l.toList.length) cap else none
  | fuel + 1, RItem.alts ls :: rest, s, cap =>
    ls.findSome? (fun l =>
      if l.toList.isPrefixOf s then mrun fuel rest (s.drop l.toList.length) cap else none)
  | fuel + 1, RItem.cls p mn mx lz cp :: rest, s, cap =>
    let run := (s.takeWhile p).length
    let hi := match mx with
              | some m => min run m
              | none => run
    let ks := if lz then (List.range (hi + 1 - mn)).map (fun j => mn + j)
              else (List.range (hi + 1 - mn)).map (fun j => hi - j)
    ks.findSome? (fun k => mrun fuel rest (s.drop k) (addCap cp cap (s.take k)))
  | fuel + 1, RItem.look ls allowEnd :: rest, s, cap =>
    if ls.any (fun l => l.toList.isPrefixOf s) || (allowEnd && s.isEmpty) then
      mrun fuel rest s cap
    else none

/-- Match the whole item list at the current position. -/
def rmatch (items : List RItem) (s : List Char) : Option (Option (List Char)) :=
  mrun (items.length + 1) items s none

/-- Python `re.search`: leftmost position whose match succeeds;
returns the capture group of interest. -/
def rsearch (items : List RItem) : List Char → Option (List Char)
  | [] =>
    match rmatch items [] with
    | some (some g) => some g
    | _ => none
  | c :: t =>
    match rmatch items (c :: t) with
    | some (some g) => some g
    | some none => none
    | none => rsearch items t

/-- Regex `\s*`. -/
def spaceStar : RItem := RItem.cls pyIsSpace 0 none false false

/-- Regex `\|?`. -/
def pipeOpt : RItem := RItem.cls (fun c => c == '|') 0 (some 1) false false

/-- Non-newline characters: regex `.` without `re.DOTALL`. -/
def notNL (c : Char) : Bool := c != '\n'

/-- `(Roll|Role):\s*\|?\s*(.+)` from `convert_to_json`. -/
def rolePat : List RItem :=
  [RItem.alts ["Roll", "Role"], RItem.lit ":", spaceStar, pipeOpt, spaceStar,
   RItem.cls notNL 1 none false true]

/-- `(Kund|Client):\s*\|?\s*(.+)` from `convert_to_json`. -/
def customerPat : List RItem :=
  [RItem.alts ["Kund", "Client"], RItem.lit ":", spaceStar, pipeOpt, spaceStar,
   RItem.cls notNL 1 none false true]

/-- `(Kund|Client):\s*(.+)` from `detect_company_names` (no pipe item). -/
def kundSearchPat : List RItem :=
  [RItem.alts ["Kund", "Client"], RItem.lit ":", spaceStar,
   RItem.cls notNL 1 none false true]

/-- The class `[\d\-–\s]`. -/
def periodChar (c : Char) : Bool := c.isDigit || c == '-' || c == '–' || pyIsSpace c

/-- `Period:\s*\|?\s*([\d\-–\s]+)` from `convert_to_json`. -/
def periodPat : List RItem :=
  [RItem.lit "Period:", spaceStar, pipeOpt, spaceStar,
   RItem.cls periodChar 1 none false true]

/-- `(Beskrivning|Description)\s*(.+?)(?=\nExpertis|Expertise|\Z)` with
`re.DOTALL` from `convert_to_json`: the capture is lazy and must hold
at least one character; the lookahead alternatives are checked in
order, end of input last. -/
def descPat : List RItem :=
  [RItem.alts ["Beskrivning", "Description"], spaceStar,
   RItem.cls (fun _ => true) 1 none true true,
   RItem.look ["\nExpertis", "Expertise"] true]

/-- `(Expertis|Expertise)\s*\|(.+)` with `re.DOTALL` from `convert_to_json`. -/
def expPat : List RItem :=
  [RItem.alts ["Expertis", "Expertise"], spaceStar, RItem.lit "|",
   RItem.cls (fun _ => true) 1 none false true]

/-! ## Word-boundary redaction (`replace_prohibited_terms`)

The source builds `r"\b(" + "|".join(re.escape(t)) + r")\b"` and calls
`re.sub(pattern, "[REDACTED]", value)`.  `re.sub` scans the original
string left to right; at each position the alternatives are tried in
order; a term matches when it is a literal prefix there and both of
its edges sit on a `\b` word/non-word boundary; matched text is
replaced and scanning resumes after it. -/

def wordOpt : Option Char → Bool
  | none => false
  | some c => pyIsWord c

/-- One term matches at the current position: non-empty literal prefix
with a word boundary on each side (`prev` is the original character
just before the position). -/
def wbMatch (prev : Option Char) (t : List Char) (s : List Char) : Bool :=
  !t.isEmpty && t.isPrefixOf s && (wordOpt prev != wordOpt s.head?) &&
    (wordOpt t.getLast? != wordOpt (s.drop t.length).head?)

/-- First term of the alternation matching at the current position. -/
def findTerm (ts : List (List Char)) (prev : Option Char) (s : List Char) :
    Option (List Char) :=
  ts.find? (fun t => wbMatch prev t s)

def redactedMarker : List Char := ("[REDACTED]").toList

/-- The `re.sub` scan; `fuel ≥ s.length` suffices since every step
consumes at least one character. -/
def wbSubF : Nat → List (List Char) → Option Char → List Char → List Char
  | 0, _, _, s => s
  | _ + 1, _, _, [] => []
  | fuel + 1, ts, prev, c :: rest =>
    match findTerm ts prev (c :: rest) with
    | some t => redactedMarker ++ wbSubF fuel ts t.getLast? ((c :: rest).drop t.length)
    | none => c :: wbSubF fuel ts (some c) rest

/-- `re.sub(r"\b(terms)\b", "[REDACTED]", s)` for literal terms. -/
def pySub (ts : List String) (s : String) : String :=
  String.mk (wbSubF s.toList.length (ts.map (fun t => t.toList)) none s.toList)

/-! ## Data model -/

/-- Python errors the embedded code can raise. -/
inductive PyErr where
  | valueError
  | attributeError
deriving DecidableEq, Repr

/-- The assignment record built by `convert_to_json`.  It is a Python
dict; the six construction keys are the named fields, and
`applied_skills` models the extra key that `replace_prohibited_terms`
inserts (absent = `none`). -/
structure Assignment where
  role : String
  customer : String
  date_start : String
  date_end : String
  description : String
  expertise : List String
  applied_skills : Option String
deriving DecidableEq, Repr

/-- The dict's key list, in insertion order. -/
def assignmentKeys (r : Assignment) : List String :=
  ["role", "customer", "date_start", "date_end", "description", "expertise"] ++
    (match r.applied_skills with
     | some _ => ["applied_skills"]
     | none => [])

/-- Python truthiness of the record dict (`if parsed_json:`). -/
def assignmentTruthy (r : Assignment) : Bool := !(assignmentKeys r).isEmpty

/-- A document: tables (rows of cell texts) and paragraphs. -/
structure Document where
  tables : List (List (List String))
  paragraphs : List String
deriving DecidableEq, Repr

/-- The profile dict returned by `parse_docx_to_json`. -/
structure ExtractedProfile where
  title : String
  introduction : Option String
  education : Option String
  assignments : List Assignment
deriving DecidableEq, Repr

/-! ## Fixed-coordinate extraction (`detect_applicant_name`,
`extract_introduction`, `extract_education`) -/

/-- `detect_applicant_name`: table 1 row 2 cell 2, stripped, split on
the first space into first/last name; `none` models the
`(None, None)` returned on `IndexError`/`ValueError`. -/
def detect_applicant_name (doc : Document) : Option (String × String) :=
  match doc.tables[0]? with
  | none => none
  | some t =>
    match t[1]? with
    | none => none
    | some r =>
      match r[1]? with
      | none => none
      | some cellText =>
        match splitFirstSpaceL (stripStr cellText).toList with
        | some (a, b) => some (String.mk a, String.mk b)
        | none => none

/-- `extract_introduction`: table 2 row 1 cell 1, stripped; `none` on
`IndexError`. -/
def extract_introduction (doc : Document) : Option String :=
  match doc.tables[1]? with
  | none => none
  | some t =>
    match t[0]? with
    | none => none
    | some r =>
      match r[0]? with
      | none => none
      | some cellText => some (stripStr cellText)

/-- `extract_education`: table 3 row 3 cell 1, stripped; `none` on
`IndexError`. -/
def extract_education (doc : Document) : Option String :=
  match doc.tables[2]? with
  | none => none
  | some t =>
    match t[2]? with
    | none => none
    | some r =>
      match r[0]? with
      | none => none
      | some cellText => some (stripStr cellText)

/-! ## Client-name discovery (`detect_company_names`) -/

/-- Stripped capture of `(Kund|Client):\s*(.+)` in a text, if any. -/
def kundFromText (t : String) : Option String :=
  (rsearch kundSearchPat t.toList).map (fun g => String.mk (stripL g))

/-- `" ".join(cell.text.strip() for cell in row.cells)`. -/
def rowTextSpace (row : List String) : String :=
  String.intercalate (" ") (row.map stripStr)

/-- Python `set.add`, modelled as ordered insert-if-absent. -/
def addCompany (acc : List String) (s : String) : List String :=
  if s ∈ acc then acc else acc ++ [s]

/-- The table-row branch of `detect_company_names`: the stripped
capture is added without an emptiness check. -/
def companyFromRow (acc : List String) (row : List String) : List String :=
  match kundFromText (rowTextSpace row) with
  | some n => addCompany acc n
  | none => acc

def companyFromTable (acc : List String) (table : List (List String)) : List String :=
  table.foldl companyFromRow acc

/-- The paragraph branch of `detect_company_names`: the stripped
capture is added only when non-empty. -/
def companyFromPara (acc : List String) (para : String) : List String :=
  match kundFromText para with
  | some n => if n = "" then acc else addCompany acc n
  | none => acc

/-- `detect_company_names`: scan every table row, then every
paragraph. -/
def detect_company_names (doc : Document) : List String :=
  doc.paragraphs.foldl companyFromPara (doc.tables.foldl companyFromTable [])

/-! ## Term redaction (`replace_prohibited_terms`) -/

/-- `replace_prohibited_terms`: the term list may contain `none`
(Python `None` from a failed name extraction), on which `term.strip()`
raises `AttributeError`; empty-after-strip terms are filtered out; if
none remain the record is returned unchanged; otherwise the fields
`description`, `applied_skills` (absent, so read as `""` and then
written back, inserting the key) and `customer` are passed through the
word-boundary substitution.  The `expertise` list is not among the
checked fields. -/
def replace_prohibited_terms (prohibited_terms : List (Option String))
    (json_data : Assignment) : Except PyErr Assignment :=
  if prohibited_terms.any (fun t => t.isNone) then Except.error PyErr.attributeError
  else
    let valid_terms := (prohibited_terms.filterMap id).filter (fun t => stripStr t ≠ "")
    if valid_terms.isEmpty then Except.ok json_data
    else Except.ok
      { json_data with
        description := pySub valid_terms json_data.description,
        applied_skills := some (pySub valid_terms (json_data.applied_skills.getD "")),
        customer := pySub valid_terms json_data.customer }

/-! ## Section normalisation (`convert_to_json`) -/

/-- `parse_skills`: split on `|`, strip each piece, drop empties. -/
def parse_skills (g : List Char) : List String :=
  ((splitOnChar '|' g).map (fun p => String.mk (stripL p))).filter (fun s => s ≠ "")

/-- `datetime.strptime(text, "%Y-%m")`: exactly four digits, a hyphen,
and a month (`1`..`9`, `01`..`09`, `10`..`12`), with nothing left
over; year 0 is out of range. -/
def monthVal : List Char → Option Nat
  | [c] => if '1' ≤ c && c ≤ '9' then some (c.toNat - 48) else none
  | [c1, c2] =>
    if c1 == '1' && '0' ≤ c2 && c2 ≤ '2' then some (10 + (c2.toNat - 48))
    else if c1 == '0' && '1' ≤ c2 && c2 ≤ '9' then some (c2.toNat - 48)
    else none
  | _ => none

def strptimeYm : List Char → Option (Nat × Nat)
  | a :: b :: c :: d :: '-' :: ms =>
    if a.isDigit && b.isDigit && c.isDigit && d.isDigit then
      let y := (a.toNat - 48) * 1000 + (b.toNat - 48) * 100 + (c.toNat - 48) * 10 + (d.toNat - 48)
      match monthVal ms with
      | some m => if y == 0 then none else some (y, m)
      | none => none
    else none
  | _ => none

/-- `datetime.strftime("%m/%Y")`: zero-padded month, then the year. -/
def fmtMonthYear (y m : Nat) : String :=
  (if m < 10 then "0" ++ toString m else toString m) ++ "/" ++ toString y

/-- The `Period:` branch of `convert_to_json`: on a regex match the
capture is split on the en-dash; each present side is stripped and
parsed as `%Y-%m` (a parse failure is the `ValueError` the source does
not catch); an absent or empty side yields `""`. -/
def periodDates (l : List Char) : Except PyErr (String × String) :=
  match rsearch periodPat l with
  | none => Except.ok ("", "")
  | some g =>
    let parts := splitOnChar '–' g
    let p0 := stripL (parts.headD [])
    let startRes : Except PyErr String :=
      if p0.isEmpty then Except.ok ""
      else match strptimeYm p0 with
           | some (y, m) => Except.ok (fmtMonthYear y m)
           | none => Except.error PyErr.valueError
    match startRes with
    | Except.error e => Except.error e
    | Except.ok ds =>
      let p1 := stripL (parts.getD 1 [])
      let endRes : Except PyErr String :=
        if parts.length ≤ 1 || p1.isEmpty then Except.ok ""
        else match strptimeYm p1 with
             | some (y, m) => Except.ok (fmtMonthYear y m)
             | none => Except.error PyErr.valueError
      match endRes with
      | Except.error e => Except.error e
      | Except.ok de => Except.ok (ds, de)

/-- The description extraction of `convert_to_json` (search of
`descPat`, stripped capture, `""` when absent). -/
def extractDescription (l : List Char) : String :=
  ((rsearch descPat l).map (fun g => String.mk (stripL g))).getD ""

/-- `convert_to_json`: normalise line breaks, extract role, customer,
period dates, description and expertise, then redact. -/
def convert_to_json (input_text : String) (prohibited_terms : List (Option String)) :
    Except PyErr Assignment :=
  let l := pySplitJoin input_text.toList
  let role := ((rsearch rolePat l).map (fun g => String.mk (stripL g))).getD ""
  let customer := ((rsearch customerPat l).map (fun g => String.mk (stripL g))).getD ""
  match periodDates l with
  | Except.error e => Except.error e
  | Except.ok (ds, de) =>
    let description := extractDescription l
    let expertise :=
      match rsearch expPat l with
      | some g => parse_skills g
      | none => []
    replace_prohibited_terms prohibited_terms
      { role := role, customer := customer, date_start := ds, date_end := de,
        description := description, expertise := expertise, applied_skills := none }

/-! ## Section segmentation (`extract_sections_from_tables`) -/

/-- `"\n".join` of accumulated rows. -/
def joinLines : List String → String
  | [] => ""
  | [s] => s
  | s :: s2 :: t => s ++ "\n" ++ joinLines (s2 :: t)

/-- `re.match(r"^(Roll|Role):", row_text)`. -/
def startsRole (s : String) : Bool :=
  ("Roll:").toList.isPrefixOf s.toList || ("Role:").toList.isPrefixOf s.toList

/-- `list(dict.fromkeys(...))`: order-preserving de-duplication
keeping first occurrences. -/
def dedupFirstAux : List String → List String → List String
  | _, [] => []
  | seenAcc, x :: xs =>
    if x ∈ seenAcc then dedupFirstAux seenAcc xs
    else x :: dedupFirstAux (x :: seenAcc) xs

def dedupFirst (l : List String) : List String := dedupFirstAux [] l

/-- The de-duplicated, pipe-joined row text of
`extract_sections_from_tables`. -/
def rowText (row : List String) : String :=
  stripStr (String.intercalate (" | ")
    (dedupFirst ((row.map stripStr).filter (fun s => s ≠ ""))))

/-- The mutable state of `extract_sections_from_tables`: finished
sections, the section being accumulated, the seen-row memory, and the
`capture` flag (which the source never resets at a table boundary). -/
structure SegState where
  sections : List String
  current : List String
  seen : List String
  capture : Bool
deriving DecidableEq, Repr

def segInit : SegState := { sections := [], current := [], seen := [], capture := false }

/-- Processing of one row: skip empty or already-seen row text;
a `Roll:`/`Role:` row flushes the current section and starts a new
one; otherwise the row is appended when `capture` is set. -/
def segRow (st : SegState) (row : List String) : SegState :=
  if rowText row = "" ∨ rowText row ∈ st.seen then st
  else if startsRole (rowText row) then
    { sections := st.sections ++ (if st.current.isEmpty then [] else [joinLines st.current]),
      current := [rowText row],
      seen := st.seen ++ [rowText row],
      capture := true }
  else if st.capture then
    { st with current := st.current ++ [rowText row], seen := st.seen ++ [rowText row] }
  else
    { st with seen := st.seen ++ [rowText row] }

def segRows (st : SegState) (t : List (List String)) : SegState := t.foldl segRow st

/-- End of a table: only when a section is being accumulated is it
flushed and the seen-row memory cleared (the source's
`seen_rows.clear()` sits inside `if current_section:`). -/
def segTableEnd (st : SegState) : SegState :=
  if st.current.isEmpty then st
  else { sections := st.sections ++ [joinLines st.current], current := [], seen := [],
         capture := st.capture }

def segTable (st : SegState) (t : List (List String)) : SegState := segTableEnd (segRows st t)

def extract_sections_from_tables (doc : Document) : List String :=
  (doc.tables.foldl segTable segInit).sections

/-! ## Pipeline (`parse_docx_to_json`) -/

/-- `{first_name, last_name}.union(company_names)` — a Python set; its
iteration order is unspecified, which can only affect which of two
overlapping terms is preferred by the alternation, not the claims
below.  A failed name extraction contributes `None`. -/
def prohibitedTerms (doc : Document) : List (Option String) :=
  (match detect_applicant_name doc with
   | some (f, l) => [some f, some l]
   | none => [none]) ++ (detect_company_names doc).map some

/-- The `for section in sections` loop of `parse_docx_to_json`:
each section is normalised; an uncaught Python exception aborts the
loop; a truthy result is appended. -/
def processSections (terms : List (Option String)) :
    List String → Except PyErr (List Assignment)
  | [] => Except.ok []
  | s :: rest =>
    match convert_to_json s terms with
    | Except.error e => Except.error e
    | Except.ok r =>
      match processSections terms rest with
      | Except.error e => Except.error e
      | Except.ok l => Except.ok (if assignmentTruthy r then r :: l else l)

/-- `parse_docx_to_json`. -/
def parse_docx_to_json (doc : Document) (filename : String) :
    Except PyErr ExtractedProfile :=
  match processSections (prohibitedTerms doc) (extract_sections_from_tables doc) with
  | Except.error e => Except.error e
  | Except.ok assignments =>
    Except.ok { title := filename, introduction := extract_introduction doc,
                education := extract_education doc, assignments := assignments }

end CvToJson

namespace CvToJson

/-! ## Helper lemmas -/

/-- `trimTrail` is Mathlib's `rdropWhile`. -/
theorem trimTrail_eq_rdropWhile (l : List Char) :
    trimTrail l = List.rdropWhile pyIsSpace l := rfl

/-- The first element surviving `dropWhile` fails the predicate. -/
theorem dropWhile_head_false {p : Char → Bool} :
    ∀ {l c r}, List.dropWhile p l = c :: r → p c = false := by
  intro l
  induction l with
  | nil => intro c r h; exact absurd h (by simp)
  | cons a t ih =>
    intro c r h
    by_cases hpa : p a = true
    · rw [List.dropWhile_cons_of_pos hpa] at h
      exact ih h
    · rw [List.dropWhile_cons_of_neg hpa] at h
      cases h
      exact Bool.eq_false_iff.mpr hpa

/-- Stripping is idempotent. -/
theorem stripL_idem (l : List Char) : stripL (stripL l) = stripL l := by
  unfold stripL trimLead
  rw [trimTrail_eq_rdropWhile, trimTrail_eq_rdropWhile]
  have hdw : List.dropWhile pyIsSpace (List.rdropWhile pyIsSpace (List.dropWhile pyIsSpace l)) =
      List.rdropWhile pyIsSpace (List.dropWhile pyIsSpace l) := by
    rcases hr : List.rdropWhile pyIsSpace (List.dropWhile pyIsSpace l) with _ | ⟨c, t⟩
    · simp
    · have hpre : (c :: t) <+: List.dropWhile pyIsSpace l := by
        rw [← hr]; exact List.rdropWhile_prefix pyIsSpace _
      rcases hpre with ⟨u, hu⟩
      have hc : pyIsSpace c = false := dropWhile_head_false hu.symm
      simp [List.dropWhile, hc]
  rw [hdw, List.rdropWhile_idempotent]

/-- Stripping an already-stripped string is the identity. -/
theorem stripStr_mk_stripL (g : List Char) :
    stripStr (String.mk (stripL g)) = String.mk (stripL g) := by
  show String.mk (stripL (stripL g)) = String.mk (stripL g)
  rw [stripL_idem]

/-- A fold preserves any invariant its step preserves. -/
theorem foldl_preserve {α β : Type} (P : β → Prop) (f : β → α → β)
    (hstep : ∀ b a, P b → P (f b a)) :
    ∀ (l : List α) (b : β), P b → P (List.foldl f b l) := by
  intro l
  induction l with
  | nil => intro b hb; exact hb
  | cons a t ih => intro b hb; exact ih (f b a) (hstep b a hb)

/-- No word-boundary term match on the empty string. -/
theorem wbMatch_nil (prev : Option Char) (t : List Char) :
    wbMatch prev t [] = false := by
  cases t <;> simp [wbMatch, List.isPrefixOf]

/-- The record dict is always truthy: its key list starts with `"role"`. -/
theorem assignmentTruthy_true (r : Assignment) : assignmentTruthy r = true := by
  cases h : r.applied_skills <;> simp [assignmentTruthy, assignmentKeys, h]

/-! ## C1 -/

/-- C1: evaluation witnessing the redaction defect.  On a section with
the term `Acme` in the customer, description and expertise fields,
`convert_to_json` redacts `description` and `customer` but leaves the
`expertise` entries untouched (and inserts a stray `applied_skills`
key), because `replace_prohibited_terms` consults the key
`applied_skills` instead of `expertise`. -/
theorem c1_expertise_not_redacted :
    convert_to_json ("Roll: A\nKund: Acme\nBeskrivning Acme did X\nExpertis | Acme | SQL")
      [some ("Acme")] =
    Except.ok { role := "A", customer := "[REDACTED]", date_start := "", date_end := "",
                description := "[REDACTED] did X", expertise := ["Acme", "SQL"],
                applied_skills := some "" } := rfl

/-! ## C2 -/

/-- C2: evaluation witnessing the crash.  When the name cell cannot be
split on a space, `detect_applicant_name` yields the Python pair
`(None, None)`; the `None` reaches `term.strip()` inside
`replace_prohibited_terms` as soon as one assignment section exists,
and the resulting `AttributeError` propagates out of
`parse_docx_to_json` instead of the pipeline succeeding. -/
theorem c2_pipeline_attribute_error :
    parse_docx_to_json { tables := [[["x", "x"], ["", "Jane"], ["Roll:", "Engineer"]]],
                         paragraphs := [] } ("cv") =
    Except.error PyErr.attributeError := rfl

/-! ## C7 -/

/-- C7: period parsing round-trips `YYYY-MM` to `MM/YYYY`: a full
range yields both dates, a start-only text leaves the end empty, and a
missing start side yields the empty string for that side. -/
theorem c7_period_round_trip :
    convert_to_json ("Period: 2021-01 – 2022-06") [] =
      Except.ok { role := "", customer := "", date_start := "01/2021",
                  date_end := "06/2022", description := "", expertise := [],
                  applied_skills := none } ∧
    convert_to_json ("Period: 2021-01") [] =
      Except.ok { role := "", customer := "", date_start := "01/2021",
                  date_end := "", description := "", expertise := [],
                  applied_skills := none } ∧
    convert_to_json ("Period: – 2022-06") [] =
      Except.ok { role := "", customer := "", date_start := "",
                  date_end := "06/2022", description := "", expertise := [],
                  applied_skills := none } := ⟨rfl, rfl, rfl⟩

end CvToJson

namespace CvToJson

/-! ## C3 -/

/-- C3 counterexample: the `capture` flag is never reset at a table
boundary, so once a first table has produced a role section, the rows
of a following table are accumulated into a section even though no
`Roll:`/`Role:` row starts it: the section `"junk"` is produced and
does not start at a role-labelled row. -/
theorem c3_counterexample :
    extract_sections_from_tables { tables := [[["Roll:", "A"]], [["junk"]]],
                                   paragraphs := [] } = ["Roll: | A", "junk"] ∧
    startsRole ("junk") = false := ⟨rfl, rfl⟩

/-! ## C4 -/

/-- C4 counterexample: the seen-row memory is NOT reset at every table
boundary.  A first table whose rows never open a section leaves
`seen_rows` populated; the identical row `"X"` of the second table is
then discarded, whereas the same second table alone keeps it. -/
theorem c4_counterexample :
    extract_sections_from_tables { tables := [[["X"]], [["Roll:", "A"], ["X"]]],
                                   paragraphs := [] } = ["Roll: | A"] ∧
    extract_sections_from_tables { tables := [[["Roll:", "A"], ["X"]]],
                                   paragraphs := [] } = ["Roll: | A\nX"] := ⟨rfl, rfl⟩

/-- A row whose text is empty or already seen changes nothing. -/
theorem segRow_skip (st : SegState) (row : List String)
    (h : rowText row = "" ∨ rowText row ∈ st.seen) : segRow st row = st := by
  unfold segRow
  rw [if_pos h]

/-- A row that is processed records its text in the seen memory. -/
theorem segRow_seen_eq (st : SegState) (row : List String)
    (h : ¬(rowText row = "" ∨ rowText row ∈ st.seen)) :
    (segRow st row).seen = st.seen ++ [rowText row] := by
  unfold segRow
  rw [if_neg h]
  split_ifs <;> rfl

/-- Processing a row leaves its text empty or recorded as seen. -/
theorem segRow_seen (st : SegState) (row : List String) :
    rowText row = "" ∨ rowText row ∈ (segRow st row).seen := by
  by_cases h0 : rowText row = ""
  · exact Or.inl h0
  · right
    by_cases h1 : rowText row ∈ st.seen
    · rw [segRow_skip st row (Or.inr h1)]
      exact h1
    · rw [segRow_seen_eq st row (not_or.mpr ⟨h0, h1⟩)]
      simp

/-- C4, amended: duplicate-row suppression is per-row-text and the
seen-row memory is reset at a table boundary exactly when the table
ends with a non-empty accumulated section (the source's
`seen_rows.clear()` sits inside `if current_section:`).  Consequently
re-processing the same row twice in a row changes nothing, and after a
table that accumulated no section the memory persists unchanged into
the next table. -/
theorem c4_dedup_reset_only_on_flush :
    (∀ (st : SegState) (row : List String), segRow (segRow st row) row = segRow st row) ∧
    (∀ (st : SegState) (t : List (List String)),
      ((segRows st t).current ≠ [] → (segTable st t).seen = []) ∧
      ((segRows st t).current = [] → segTable st t = segRows st t)) := by
  constructor
  · intro st row
    exact segRow_skip (segRow st row) row (segRow_seen st row)
  · intro st t
    constructor
    · intro h
      unfold segTable segTableEnd
      simp [h]
    · intro h
      unfold segTable segTableEnd
      simp [h]

/-- C4 witness: instantiating the amended statement.  A table ending
with an open section resets the memory. -/
theorem c4_witness :
    (segTable segInit [["Roll:", "A"]]).seen = [] :=
  (c4_dedup_reset_only_on_flush.2 segInit [["Roll:", "A"]]).1 (by decide)

/-! ## C5 -/

/-- C5 counterexample: a section whose matched `Period:` text is not
in `YYYY-MM` form is not silently dropped — the `ValueError` from
`datetime.strptime` propagates and the pipeline returns no profile at
all. -/
theorem c5_counterexample :
    parse_docx_to_json
      { tables := [[["h", "h2"], ["lbl", "Jane Doe"], ["Roll:", "A"], ["Period:", "202"]]],
        paragraphs := [] } ("cv") = Except.error PyErr.valueError := rfl

/-! ## C6 -/

/-- C6 counterexample: a table row whose cells are `"Kund:"` and `""`
joins to `"Kund: "`, whose capture strips to the empty string, and the
table branch of `detect_company_names` adds it without the emptiness
check: the redaction set is `{""}`. -/
theorem c6_counterexample :
    detect_company_names { tables := [[["Kund:", ""]]], paragraphs := [] } = [""] := rfl

/-! ## C9 -/

/-- C9 counterexample: with an empty description body, the lazy
capture (which must hold at least one character) cannot stop in front
of the `Expertis` label that immediately follows, so it runs past it
to the end of the text: the extracted description is the expertise
line itself rather than the empty string. -/
theorem c9_counterexample :
    convert_to_json ("Beskrivning\nExpertis | Go") [] =
    Except.ok { role := "", customer := "", date_start := "", date_end := "",
                description := "Expertis | Go", expertise := ["Go"],
                applied_skills := none } := rfl

/-! ## C10 -/

/-- C10 counterexample: when a non-empty effective term set triggers
redaction, the returned record carries a seventh key
`applied_skills` in addition to the six construction keys. -/
theorem c10_counterexample :
    convert_to_json ("Roll: A") [some ("X")] =
      Except.ok { role := "A", customer := "", date_start := "", date_end := "",
                  description := "", expertise := [], applied_skills := some "" } ∧
    assignmentKeys { role := "A", customer := "", date_start := "", date_end := "",
                     description := "", expertise := [],
                     applied_skills := some "" } =
      ["role", "customer", "date_start", "date_end", "description", "expertise",
       "applied_skills"] := ⟨rfl, rfl⟩

end CvToJson

namespace CvToJson

/-- A prefix of `a` is a prefix of `a ++ b`. -/
theorem startsRole_append (a b : String) (h : startsRole a = true) :
    startsRole (a ++ b) = true := by
  unfold startsRole at h ⊢
  have hdata : (a ++ b).toList = a.toList ++ b.toList := String.data_append a b
  rw [hdata, Bool.or_eq_true] at *
  rcases h with h1 | h1
  · exact Or.inl (List.isPrefixOf_iff_prefix.mpr
      ((List.isPrefixOf_iff_prefix.mp h1).trans (List.prefix_append _ _)))
  · exact Or.inr (List.isPrefixOf_iff_prefix.mpr
      ((List.isPrefixOf_iff_prefix.mp h1).trans (List.prefix_append _ _)))

/-- A joined block starts with a role label when its first row does. -/
theorem startsRole_joinLines (hd : String) (tl : List String)
    (h : startsRole hd = true) : startsRole (joinLines (hd :: tl)) = true := by
  cases tl with
  | nil => simpa [joinLines] using h
  | cons y t =>
    show startsRole (hd ++ "\n" ++ joinLines (y :: t)) = true
    exact startsRole_append _ _ (startsRole_append _ _ h)

/-- Row processing preserves the single-table invariant: finished
sections start with a role row, `capture` tracks a non-empty current
section, and the current section's head is a role row. -/
theorem segRow_role_inv (st : SegState) (row : List String)
    (h1 : ∀ s ∈ st.sections, startsRole s = true)
    (h2 : st.capture = true ↔ st.current ≠ [])
    (h3 : ∀ hd, st.current.head? = some hd → startsRole hd = true) :
    (∀ s ∈ (segRow st row).sections, startsRole s = true) ∧
    ((segRow st row).capture = true ↔ (segRow st row).current ≠ []) ∧
    (∀ hd, (segRow st row).current.head? = some hd → startsRole hd = true) := by
  by_cases h0 : rowText row = "" ∨ rowText row ∈ st.seen
  · rw [segRow_skip st row h0]
    exact ⟨h1, h2, h3⟩
  · unfold segRow
    rw [if_neg h0]
    by_cases hrole : startsRole (rowText row) = true
    · rw [if_pos hrole]
      refine ⟨?_, by simp, ?_⟩
      · intro s hs
        simp only [List.mem_append] at hs
        rcases hs with hs | hs
        · exact h1 s hs
        · cases hcur : st.current with
          | nil => rw [hcur] at hs; simp at hs
          | cons hd tl =>
            rw [hcur] at hs
            simp only [List.isEmpty_cons, if_neg] at hs
            have hs2 : s = joinLines (hd :: tl) := by simpa using hs
            rw [hs2]
            exact startsRole_joinLines hd tl (h3 hd (by rw [hcur]; rfl))
      · intro hd hhd
        simp only [List.head?_cons, Option.some.injEq] at hhd
        rw [← hhd]
        exact hrole
    · rw [if_neg hrole]
      by_cases hcap : st.capture = true
      · rw [if_pos hcap]
        have hcur : st.current ≠ [] := h2.mp hcap
        refine ⟨h1, by simp [hcap], ?_⟩
        · intro hd hhd
          cases hcur2 : st.current with
          | nil => exact absurd hcur2 hcur
          | cons c tl =>
            rw [hcur2] at hhd
            simp only [List.cons_append, List.head?_cons, Option.some.injEq] at hhd
            rw [← hhd]
            exact h3 c (by rw [hcur2]; rfl)
      · rw [if_neg hcap]
        exact ⟨h1, h2, h3⟩

/-- The row fold preserves the single-table invariant. -/
theorem segRows_role_inv (rows : List (List String)) (st : SegState)
    (h : (∀ s ∈ st.sections, startsRole s = true) ∧
         (st.capture = true ↔ st.current ≠ []) ∧
         (∀ hd, st.current.head? = some hd → startsRole hd = true)) :
    (∀ s ∈ (segRows st rows).sections, startsRole s = true) ∧
    ((segRows st rows).capture = true ↔ (segRows st rows).current ≠ []) ∧
    (∀ hd, (segRows st rows).current.head? = some hd → startsRole hd = true) :=
  foldl_preserve
    (fun st => (∀ s ∈ st.sections, startsRole s = true) ∧
      (st.capture = true ↔ st.current ≠ []) ∧
      (∀ hd, st.current.head? = some hd → startsRole hd = true))
    segRow
    (fun b a hb => segRow_role_inv b a hb.1 hb.2.1 hb.2.2)
    rows st h

/-- C3, amended: in a single-table document every produced section
starts at a role-labelled row, and a section never extends past its
table (a role row flushes the previous section, the table end flushes
the last).  (In a multi-table document the claim fails: the `capture`
flag is not reset at table boundaries, so after a table containing a
role row, a later table's leading rows form a section that need not
start at a role-labelled row — see the counterexample.) -/
theorem c3_single_table_sections_start_with_role
    (t : List (List String)) (ps : List String) (s : String)
    (hs : s ∈ extract_sections_from_tables { tables := [t], paragraphs := ps }) :
    startsRole s = true := by
  have hext : extract_sections_from_tables { tables := [t], paragraphs := ps } =
      (segTableEnd (segRows segInit t)).sections := rfl
  rw [hext] at hs
  have hinv := segRows_role_inv t segInit ⟨by simp [segInit], by simp [segInit], by simp [segInit]⟩
  rcases hinv with ⟨h1, _h2, h3⟩
  unfold segTableEnd at hs
  by_cases hc : (segRows segInit t).current.isEmpty = true
  · rw [if_pos hc] at hs
    exact h1 s hs
  · rw [if_neg hc] at hs
    simp only [List.mem_append] at hs
    rcases hs with hs | hs
    · exact h1 s hs
    · cases hcur : (segRows segInit t).current with
      | nil => rw [hcur] at hc; simp at hc
      | cons hd tl =>
        rw [hcur] at hs
        have hs2 : s = joinLines (hd :: tl) := by simpa using hs
        rw [hs2]
        exact startsRole_joinLines hd tl (h3 hd (by rw [hcur]; rfl))

/-- C3 witness: the amended statement at a concrete single table. -/
theorem c3_witness : startsRole ("Roll: | A\nX") = true :=
  c3_single_table_sections_start_with_role [["Roll:", "A"], ["X"]] [] ("Roll: | A\nX")
    (by decide)

end CvToJson

namespace CvToJson

/-! ## C5 -/

/-- A successful run of the section loop yields exactly one record per
section, in order: the truthiness filter never drops anything. -/
theorem processSections_ok_get (terms : List (Option String)) :
    ∀ (ss : List String) (l : List Assignment),
      processSections terms ss = Except.ok l →
      ∀ i, (ss.get? i).bind (fun s => (convert_to_json s terms).toOption) = l.get? i := by
  intro ss
  induction ss with
  | nil =>
    intro l h i
    have hl : ([] : List Assignment) = l := by
      simpa [processSections] using h
    rw [← hl]
    simp
  | cons s rest ih =>
    intro l h i
    unfold processSections at h
    cases hc : convert_to_json s terms with
    | error e => rw [hc] at h; simp at h
    | ok r =>
      rw [hc] at h
      cases hr : processSections terms rest with
      | error e => rw [hr] at h; simp at h
      | ok l2 =>
        rw [hr] at h
        simp only [assignmentTruthy_true r, if_true, Except.ok.injEq] at h
        rw [← h]
        cases i with
        | zero => simp [hc, Except.toOption]
        | succ j => simpa using ih l2 hr j

/-- A successful run of the section loop keeps the section count. -/
theorem processSections_ok_length (terms : List (Option String)) :
    ∀ (ss : List String) (l : List Assignment),
      processSections terms ss = Except.ok l → l.length = ss.length := by
  intro ss
  induction ss with
  | nil =>
    intro l h
    have hl : ([] : List Assignment) = l := by simpa [processSections] using h
    rw [← hl]
    rfl
  | cons s rest ih =>
    intro l h
    unfold processSections at h
    cases hc : convert_to_json s terms with
    | error e => rw [hc] at h; simp at h
    | ok r =>
      rw [hc] at h
      cases hr : processSections terms rest with
      | error e => rw [hr] at h; simp at h
      | ok l2 =>
        rw [hr] at h
        simp only [assignmentTruthy_true r, if_true, Except.ok.injEq] at h
        rw [← h]
        simp [ih l2 hr]

/-- C5, amended: a section whose matched `Period:` text is not in
`YYYY-MM` form makes the whole pipeline fail with the propagated error
(see the counterexample); sections are never silently dropped — when
the pipeline does return a profile, it contains exactly one assignment
per segmented section. -/
theorem c5_no_section_dropped_on_success (doc : Document) (fn : String)
    (p : ExtractedProfile) (h : parse_docx_to_json doc fn = Except.ok p) :
    p.assignments.length = (extract_sections_from_tables doc).length := by
  unfold parse_docx_to_json at h
  cases hps : processSections (prohibitedTerms doc) (extract_sections_from_tables doc) with
  | error e =>
    rw [hps] at h
    exact absurd h (by simp)
  | ok a =>
    simp only [hps, Except.ok.injEq] at h
    rw [← h]
    exact processSections_ok_length _ _ a hps

/-- C5 witness: the amended statement at a concrete document. -/
theorem c5_witness :
    ({ title := "cv", introduction := none, education := none,
       assignments := [{ role := "Engineer", customer := "", date_start := "",
                         date_end := "", description := "", expertise := [],
                         applied_skills := some "" }] } : ExtractedProfile).assignments.length =
    (extract_sections_from_tables
      { tables := [[["a", "b"], ["x", "Jane Doe"], ["Roll:", "Engineer"]]],
        paragraphs := [] }).length :=
  c5_no_section_dropped_on_success
    { tables := [[["a", "b"], ["x", "Jane Doe"], ["Roll:", "Engineer"]]], paragraphs := [] }
    ("cv") _ (by rfl)

/-! ## C6 -/

/-- Members of `addCompany acc s` come from `acc` or are `s`. -/
theorem addCompany_mem (acc : List String) (s x : String)
    (hx : x ∈ addCompany acc s) : x ∈ acc ∨ x = s := by
  unfold addCompany at hx
  by_cases h : s ∈ acc
  · rw [if_pos h] at hx
    exact Or.inl hx
  · rw [if_neg h] at hx
    rcases List.mem_append.mp hx with h2 | h2
    · exact Or.inl h2
    · exact Or.inr (List.mem_singleton.mp h2)

/-- Every captured client name is already stripped. -/
theorem kundFromText_strip (t : String) (n : String)
    (h : kundFromText t = some n) : stripStr n = n := by
  unfold kundFromText at h
  cases hr : rsearch kundSearchPat t.toList with
  | none => rw [hr] at h; simp at h
  | some g =>
    rw [hr] at h
    have h2 : some (String.mk (stripL g)) = some n := h
    obtain rfl : String.mk (stripL g) = n := Option.some.inj h2
    exact stripStr_mk_stripL g

/-- C6, amended: every member of the client-name set is already
trimmed (so no non-empty whitespace-only string ever enters it), and
names found in paragraphs enter only when non-empty; but a name
captured from a table row is added without the emptiness check, so the
empty string can enter the set from a whitespace-only table capture
(see the counterexample). -/
theorem c6_company_names_trimmed (doc : Document) :
    (∀ s ∈ detect_company_names doc, stripStr s = s) ∧
    (doc.tables = [] → ∀ s ∈ detect_company_names doc, s ≠ "") := by
  have hrow : ∀ (acc : List String) (row : List String),
      (∀ s ∈ acc, stripStr s = s) → ∀ s ∈ companyFromRow acc row, stripStr s = s := by
    intro acc row hacc s hs
    unfold companyFromRow at hs
    cases hk : kundFromText (rowTextSpace row) with
    | none => rw [hk] at hs; exact hacc s hs
    | some n =>
      rw [hk] at hs
      rcases addCompany_mem acc n s hs with h | h
      · exact hacc s h
      · rw [h]; exact kundFromText_strip _ n hk
  have htable : ∀ (acc : List String) (table : List (List String)),
      (∀ s ∈ acc, stripStr s = s) → ∀ s ∈ companyFromTable acc table, stripStr s = s :=
    fun acc table hacc =>
      foldl_preserve (fun acc => ∀ s ∈ acc, stripStr s = s) companyFromRow hrow table acc hacc
  have hpara : ∀ (acc : List String) (para : String),
      (∀ s ∈ acc, stripStr s = s) → ∀ s ∈ companyFromPara acc para, stripStr s = s := by
    intro acc para hacc s hs
    unfold companyFromPara at hs
    cases hk : kundFromText para with
    | none => rw [hk] at hs; exact hacc s hs
    | some n =>
      simp only [hk] at hs
      by_cases hn : n = ""
      · rw [if_pos hn] at hs; exact hacc s hs
      · rw [if_neg hn] at hs
        rcases addCompany_mem acc n s hs with h | h
        · exact hacc s h
        · rw [h]; exact kundFromText_strip _ n hk
  constructor
  · unfold detect_company_names
    exact foldl_preserve _ companyFromPara hpara doc.paragraphs _
      (foldl_preserve _ companyFromTable htable doc.tables [] (by simp))
  · intro htab
    unfold detect_company_names
    rw [htab]
    simp only [List.foldl_nil]
    have hpara2 : ∀ (acc : List String) (para : String),
        (∀ s ∈ acc, s ≠ "") → ∀ s ∈ companyFromPara acc para, s ≠ "" := by
      intro acc para hacc s hs
      unfold companyFromPara at hs
      cases hk : kundFromText para with
      | none => rw [hk] at hs; exact hacc s hs
      | some n =>
        simp only [hk] at hs
        by_cases hn : n = ""
        · rw [if_pos hn] at hs; exact hacc s hs
        · rw [if_neg hn] at hs
          rcases addCompany_mem acc n s hs with h | h
          · exact hacc s h
          · rw [h]; exact hn
    exact foldl_preserve _ companyFromPara hpara2 doc.paragraphs [] (by simp)

/-- C6 witness: the amended statement at a concrete document. -/
theorem c6_witness :
    stripStr ("Acme") = "Acme" ∧ ("Acme" : String) ≠ "" :=
  ⟨(c6_company_names_trimmed { tables := [], paragraphs := ["Client: Acme "] }).1
      ("Acme") (by decide),
   (c6_company_names_trimmed { tables := [], paragraphs := ["Client: Acme "] }).2
      rfl ("Acme") (by decide)⟩

end CvToJson

namespace CvToJson

/-! ## C8 -/

/-- The `re.sub` scan leaves the string unchanged when no term has a
whole-word match at any position (`prev` abstracts the character
before the scan window). -/
theorem wbSubF_eq_self (ts : List (List Char)) :
    ∀ (s : List Char) (fuel : Nat) (prev : Option Char),
      s.length ≤ fuel →
      (∀ t ∈ ts, ∀ i,
        wbMatch (if i = 0 then prev else (s.take i).getLast?) t (s.drop i) = false) →
      wbSubF fuel ts prev s = s := by
  intro s
  induction s with
  | nil =>
    intro fuel prev _ _
    cases fuel <;> rfl
  | cons c rest ih =>
    intro fuel prev hfuel h
    cases fuel with
    | zero => simp at hfuel
    | succ f =>
      have h0 : findTerm ts prev (c :: rest) = none := by
        apply List.find?_eq_none.mpr
        intro t ht
        have h1 := h t ht 0
        simp at h1
        simp [h1]
      unfold wbSubF
      rw [h0]
      show c :: wbSubF f ts (some c) rest = c :: rest
      congr 1
      apply ih f (some c) (by simpa using Nat.le_of_succ_le_succ hfuel)
      intro t ht i
      by_cases hlen : rest.length ≤ i
      · rw [List.drop_eq_nil_of_le hlen]
        exact wbMatch_nil _ _
      · cases i with
        | zero =>
          have h2 := h t ht 1
          simpa using h2
        | succ j =>
          have hjlt : j + 1 < rest.length := Nat.lt_of_not_le hlen
          have h2 := h t ht (j + 2)
          have htake : (c :: rest).take (j + 2) = c :: rest.take (j + 1) := rfl
          have hdrop : (c :: rest).drop (j + 2) = rest.drop (j + 1) := rfl
          rw [htake, hdrop, if_neg (by omega : ¬(j + 2 = 0))] at h2
          rw [if_neg (by omega : ¬(j + 1 = 0))]
          obtain ⟨r0, rtl, hrt⟩ : ∃ r0 rtl, rest.take (j + 1) = r0 :: rtl := by
            cases hrest : rest with
            | nil => rw [hrest] at hjlt; simp at hjlt
            | cons a b => exact ⟨a, b.take j, rfl⟩
          rw [hrt] at h2 ⊢
          rwa [List.getLast?_cons_cons] at h2

/-- C8: redaction matching is whole-word and case-sensitive — if no
term of the (literal, escaped) alternation has a whole-word occurrence
anywhere in the text (its occurrences sit inside longer words), the
substitution returns the text unchanged. -/
theorem c8_whole_word_only (ts : List String) (s : String)
    (h : ∀ t ∈ ts, ∀ i < s.toList.length,
      wbMatch (if i = 0 then none else (s.toList.take i).getLast?) t.toList
        (s.toList.drop i) = false) :
    pySub ts s = s := by
  unfold pySub
  have hall : ∀ t ∈ ts.map (fun t => t.toList), ∀ i,
      wbMatch (if i = 0 then (none : Option Char) else (s.toList.take i).getLast?) t
        (s.toList.drop i) = false := by
    intro t ht i
    rcases List.mem_map.mp ht with ⟨t0, ht0, rfl⟩
    by_cases hi : i < s.toList.length
    · exact h t0 ht0 i hi
    · rw [List.drop_eq_nil_of_le (Nat.le_of_not_lt hi)]
      exact wbMatch_nil _ _
  rw [wbSubF_eq_self (ts.map (fun t => t.toList)) s.toList s.toList.length none le_rfl hall]
  rfl

/-- C8 witness: the term `Acme` occurs in `AcmeCorp` only as a proper
substring of a longer word, and redaction leaves the text unchanged. -/
theorem c8_witness : pySub ["Acme"] ("AcmeCorp") = "AcmeCorp" :=
  c8_whole_word_only ["Acme"] ("AcmeCorp") (by decide)

end CvToJson

namespace CvToJson

/-! ## C9 -/

/-- A search for a pattern opening with a literal alternation fails
when no alternative occurs at any position. -/
theorem rsearch_alts_none (ls : List String) (rest : List RItem) :
    ∀ (l : List Char), (∀ i, ∀ t ∈ ls, t.toList.isPrefixOf (l.drop i) = false) →
      rsearch (RItem.alts ls :: rest) l = none := by
  have hm : ∀ (l2 : List Char), (∀ t ∈ ls, t.toList.isPrefixOf l2 = false) →
      rmatch (RItem.alts ls :: rest) l2 = none := by
    intro l2 h2
    unfold rmatch
    simp only [List.length_cons, mrun]
    apply List.findSome?_eq_none_iff.mpr
    intro t ht
    have hx : t.toList.isPrefixOf l2 = false := h2 t ht
    simp only [hx]
    rfl
  intro l
  induction l with
  | nil =>
    intro h
    have h0 := hm [] (fun t ht => h 0 t ht)
    simp only [rsearch, h0]
  | cons c t ih =>
    intro h
    have h0 := hm (c :: t) (fun t2 ht2 => by simpa using h 0 t2 ht2)
    simp only [rsearch, h0]
    exact ih (fun i t2 ht2 => by simpa using h (i + 1) t2 ht2)

/-- C9, amended: the description is the stripped lazy capture after
the `Beskrivning`/`Description` label; the capture needs at least one
character and stops at the earliest position after that which is
followed by newline-`Expertis`, by `Expertise`, or is end of text.
Absence of the label yields the empty string; body text is captured
verbatim including interior line breaks; but when the label is
immediately followed by the expertise label (empty body) the capture
cannot stop in front of it and runs past it (see the counterexample). -/
theorem c9_description_behaviour :
    (∀ l : List Char,
      (∀ i < l.length, ∀ t ∈ (["Beskrivning", "Description"] : List String),
        t.toList.isPrefixOf (l.drop i) = false) →
      extractDescription l = "") ∧
    extractDescription (("Beskrivning Worked on X.\nExpertis | Go").toList) =
      "Worked on X." ∧
    extractDescription (("Description A\nB\nExpertise | Go").toList) = "A\nB" ∧
    extractDescription (("Beskrivning\nExpertis | Go").toList) = "Expertis | Go" := by
  refine ⟨?_, rfl, rfl, rfl⟩
  intro l h
  unfold extractDescription
  have hn : rsearch descPat l = none := by
    apply rsearch_alts_none
    intro i t ht
    by_cases hi : i < l.length
    · exact h i hi t ht
    · rw [List.drop_eq_nil_of_le (Nat.le_of_not_lt hi)]
      simp only [List.mem_cons, List.mem_singleton] at ht
      rcases ht with rfl | rfl | ht
      · rfl
      · rfl
      · simp at ht
  rw [hn]
  rfl

/-- C9 witness: the amended statement at a concrete label-free text. -/
theorem c9_witness : extractDescription (("Roll: A").toList) = "" :=
  c9_description_behaviour.1 (("Roll: A").toList) (by decide)

/-! ## C10 -/

/-- A successful redaction leaves `applied_skills` untouched or sets
it to some string. -/
theorem replace_applied (terms : List (Option String)) (r r' : Assignment)
    (h : replace_prohibited_terms terms r = Except.ok r') :
    r'.applied_skills = r.applied_skills ∨ ∃ v, r'.applied_skills = some v := by
  unfold replace_prohibited_terms at h
  by_cases h1 : terms.any (fun t => t.isNone) = true
  · rw [if_pos h1] at h
    simp at h
  · rw [if_neg h1] at h
    by_cases h2 : ((terms.filterMap id).filter (fun t => stripStr t ≠ "")).isEmpty = true
    · rw [if_pos h2] at h
      exact Or.inl (by rw [← Except.ok.inj h])
    · rw [if_neg h2] at h
      exact Or.inr ⟨_, by rw [← Except.ok.inj h]⟩

/-- C10, amended: every record returned by `convert_to_json` carries
the six construction keys in order, possibly followed by the stray
`applied_skills` key that redaction inserts (see the counterexample);
the record is never empty, so the pipeline's truthiness filter never
drops a normalized section and every section that normalizes without
error contributes exactly one assignment, in segmentation order. -/
theorem c10_keys_and_order :
    (∀ (input : String) (terms : List (Option String)) (r : Assignment),
      convert_to_json input terms = Except.ok r →
      (assignmentKeys r =
        ["role", "customer", "date_start", "date_end", "description", "expertise"] ∨
       assignmentKeys r =
        ["role", "customer", "date_start", "date_end", "description", "expertise",
         "applied_skills"]) ∧
      assignmentTruthy r = true) ∧
    (∀ (terms : List (Option String)) (ss : List String) (l : List Assignment),
      processSections terms ss = Except.ok l →
      ∀ i, (ss.get? i).bind (fun s => (convert_to_json s terms).toOption) = l.get? i) := by
  constructor
  · intro input terms r h
    refine ⟨?_, assignmentTruthy_true r⟩
    simp only [convert_to_json] at h
    cases hp : periodDates (pySplitJoin input.toList) with
    | error e =>
      simp only [hp] at h
      exact Except.noConfusion h
    | ok dd =>
      obtain ⟨ds, de⟩ := dd
      simp only [hp] at h
      rcases replace_applied _ _ _ h with ha | ⟨v, ha⟩
      · left
        simp [assignmentKeys, ha]
      · right
        simp [assignmentKeys, ha]
  · exact processSections_ok_get

/-- C10 witness: the amended key-shape statement at a concrete input. -/
theorem c10_witness :
    (assignmentKeys { role := "A", customer := "", date_start := "", date_end := "",
                      description := "", expertise := [],
                      applied_skills := none } =
      ["role", "customer", "date_start", "date_end", "description", "expertise"] ∨
     assignmentKeys { role := "A", customer := "", date_start := "", date_end := "",
                      description := "", expertise := [],
                      applied_skills := none } =
      ["role", "customer", "date_start", "date_end", "description", "expertise",
       "applied_skills"]) ∧
    assignmentTruthy { role := "A", customer := "", date_start := "", date_end := "",
                       description := "", expertise := [],
                       applied_skills := none } = true :=
  c10_keys_and_order.1 ("Roll: A") [] _ (by rfl)

end CvToJson
